import Mathlib

/-!
Verification of the `uuid` package (freddierice/uuid, `id.go`).

The package wraps a 128-bit UUID in an `ID` value type with two textual
encodings: the canonical hyphenated hex form (8-4-4-4-12, produced by
`ID.String`, parsed by `FromString` and the string/byte branches of
`ID.Scan`) and the compact base-57 "shortuuid" form (produced by
`ID.ShortString`, parsed by `Parse` and the JSON adapters), plus a
`NullableID` wrapper for absent references.

The embedding below models a UUID as its 128-bit value read as a
big-endian natural number.  `id.go` delegates the canonical codec to the
external `github.com/google/uuid` package and the compact codec to
`github.com/lithammer/shortuuid/v4`; neither collaborator's source is part
of this repository, so those two codecs are modelled from the spec (their
doc comments say so), pinned by the spec's literal fixture pairs.  The Go
error values are abstracted to their two spec-level kinds `InvalidFormat`
and `TypeMismatch`; methods with pointer receivers are modelled by
explicit state passing (the method returns the new receiver value paired
with the optional error).
-/

/-- Fixed-width base-`b` digits of `n`, most significant digit first
(`k` digits, representing `n % b ^ k`). -/
def baseDigits (b : Nat) : Nat → Nat → List Nat
  | 0, _ => []
  | k + 1, n => n / b ^ k % b :: baseDigits b k n

/-- Lowercase hexadecimal digit characters, in digit order. -/
def lowerHexChars : List Char := "0123456789abcdef".data

/-- Uppercase hexadecimal digit characters, in digit order. -/
def upperHexChars : List Char := "0123456789ABCDEF".data

/-- Index of a character in a character list, if present. -/
def idxOf (c : Char) : List Char → Option Nat
  | [] => none
  | a :: as => if a = c then some 0 else (idxOf c as).map (· + 1)

/-- Modelled from the spec: case-insensitive hexadecimal digit value, as
accepted by the canonical parser of the external `github.com/google/uuid`
collaborator ("case-insensitive on input"). -/
def hexVal (c : Char) : Option Nat :=
  match idxOf c lowerHexChars with
  | some d => some d
  | none => idxOf c upperHexChars

/-- Lowercase hexadecimal digit character for a digit value. -/
def hexChar (d : Nat) : Char := lowerHexChars.getD d '0'

/-- Whether a character is a (case-insensitive) hexadecimal digit. -/
def isHexChar (c : Char) : Bool := (hexVal c).isSome

/-- Modelled from the spec: the 57-symbol compact-text alphabet of the
external `github.com/lithammer/shortuuid/v4` collaborator — digits and
mixed-case letters excluding the visually ambiguous 0, 1, I, O, l, in
ascending ASCII order ("alphabet order defines digit values"); its first
character is '2', matching the spec's all-zero fixture. -/
def shortAlphabet : List Char :=
  "23456789ABCDEFGHJKLMNPQRSTUVWXYZabcdefghijkmnopqrstuvwxyz".data

/-- Compact-alphabet character for a digit value. -/
def alphaChar (d : Nat) : Char := shortAlphabet.getD d '2'

/-- Compact-alphabet digit value of a character, if it is in the alphabet. -/
def charToDigit (c : Char) : Option Nat := idxOf c shortAlphabet

/-- Reads exactly `k` hexadecimal characters, accumulating their value
big-endian onto `acc`; fails if the input is too short or a character is
not a hex digit. -/
def readHexAux (acc : Nat) : Nat → List Char → Option (Nat × List Char)
  | 0, cs => some (acc, cs)
  | _ + 1, [] => none
  | k + 1, c :: cs =>
    match hexVal c with
    | some d => readHexAux (acc * 16 + d) k cs
    | none => none

/-- Consumes one expected character from the front of the input. -/
def expect (c : Char) : List Char → Option (List Char)
  | [] => none
  | a :: as => if a = c then some as else none

/-- Modelled from the spec: the canonical parser of the external
`github.com/google/uuid` collaborator — validates the standard hyphenated
hex layout (36 characters, hex digits in groups of 8-4-4-4-12 separated by
hyphens at fixed positions, case-insensitive) and returns the 128-bit
value, failing on any deviation. -/
def parseCanonical (cs : List Char) : Option Nat :=
  (readHexAux 0 8 cs).bind fun p1 =>
  (expect '-' p1.2).bind fun r2 =>
  (readHexAux 0 4 r2).bind fun p2 =>
  (expect '-' p2.2).bind fun r4 =>
  (readHexAux 0 4 r4).bind fun p3 =>
  (expect '-' p3.2).bind fun r6 =>
  (readHexAux 0 4 r6).bind fun p4 =>
  (expect '-' p4.2).bind fun r8 =>
  (readHexAux 0 12 r8).bind fun p5 =>
  if p5.2 = [] then
    some ((((p1.1 * 16 ^ 4 + p2.1) * 16 ^ 4 + p3.1) * 16 ^ 4 + p4.1) * 16 ^ 12 + p5.1)
  else none

/-- Modelled from the spec: the canonical printer of the external
`github.com/google/uuid` collaborator — the standard hyphenated lowercase
hex string, 36 characters, groups of 8-4-4-4-12 big-endian hex digits. -/
def canonicalChars (n : Nat) : List Char :=
  (baseDigits 16 8 (n / 2 ^ 96)).map hexChar ++
    ('-' :: ((baseDigits 16 4 (n / 2 ^ 80)).map hexChar ++
      ('-' :: ((baseDigits 16 4 (n / 2 ^ 64)).map hexChar ++
        ('-' :: ((baseDigits 16 4 (n / 2 ^ 48)).map hexChar ++
          ('-' :: (baseDigits 16 12 n).map hexChar)))))))

/-- Modelled from the spec: the compact encoder of the external
`github.com/lithammer/shortuuid/v4` collaborator — the 128-bit value as 22
fixed-width base-57 digits, most significant first, so the all-zero value
encodes to the alphabet's first character repeated 22 times. -/
def shortChars (n : Nat) : List Char := (baseDigits 57 22 n).map alphaChar

/-- Modelled from the spec: the compact decoder of the external
`github.com/lithammer/shortuuid/v4` collaborator — accepts the fixed
22-character length, fails on characters outside the alphabet or when the
string decodes to a value exceeding 128 bits. -/
def shortDecode (cs : List Char) : Option Nat :=
  if cs.length = 22 && cs.all (fun c => (charToDigit c).isSome) then
    if cs.foldl (fun acc c => acc * 57 + (charToDigit c).getD 0) 0 < 2 ^ 128 then
      some (cs.foldl (fun acc c => acc * 57 + (charToDigit c).getD 0) 0)
    else none
  else none

/-- Spec-side predicate (the spec's words, not the parser): the standard
hyphenated hex layout — 36 characters, hyphens exactly at positions 8, 13,
18 and 23, case-insensitive hex digits everywhere else. -/
def canonicalLayout (cs : List Char) : Prop :=
  cs.length = 36 ∧
    cs.getD 8 ' ' = '-' ∧ cs.getD 13 ' ' = '-' ∧ cs.getD 18 ' ' = '-' ∧ cs.getD 23 ' ' = '-' ∧
    ∀ i, i < 36 → i ≠ 8 → i ≠ 13 → i ≠ 18 → i ≠ 23 → isHexChar (cs.getD i ' ') = true

/-- Spec-level error kinds: `invalidFormat` for text that does not conform
to a parser's grammar, `typeMismatch` for a storage value of an
uninterpretable shape (`id.go` wraps these in `fmt.Errorf` messages; only
the kind is modelled). -/
inductive UUIDError
  | invalidFormat
  | typeMismatch
deriving DecidableEq

/-- The `ID` struct of `id.go`: a wrapped `guuid.UUID`, modelled as its
128-bit value read as a big-endian natural number. -/
structure ID where
  uuid : Nat
deriving DecidableEq

/-- FromUUID creates an ID from an existing UUID (`id.go`). -/
def FromUUID (u : Nat) : ID := ⟨u⟩

/-- Parse parses a shortuuid string into an ID (`id.go`): delegates to the
compact decoder, wrapping its failure as an error. -/
def Parse (s : String) : Except UUIDError ID :=
  match shortDecode s.data with
  | some n => .ok ⟨n⟩
  | none => .error .invalidFormat

/-- FromString parses a standard UUID string into an ID (`id.go`):
delegates to the canonical parser, wrapping its failure as an error. -/
def FromString (s : String) : Except UUIDError ID :=
  match parseCanonical s.data with
  | some n => .ok ⟨n⟩
  | none => .error .invalidFormat

/-- Lean-side spelling of the `String` result type, needed because the Go
method name `ID.String` would otherwise shadow the type name inside its
own declaration. -/
abbrev Str := String

/-- The `String` method of `ID` (`id.go`): the canonical hyphenated
representation. -/
def ID.String (id : ID) : Str := ⟨canonicalChars id.uuid⟩

/-- The `ShortString` method of `ID` (`id.go`): the compact shortuuid
representation. -/
def ID.ShortString (id : ID) : Str := ⟨shortChars id.uuid⟩

/-- The `IsZero` method of `ID` (`id.go`): true iff the wrapped UUID is the
zero UUID. -/
def ID.IsZero (id : ID) : Bool := id.uuid == 0

/-- The `Equal` method of `ID` (`id.go`). -/
def ID.Equal (id other : ID) : Bool := id.uuid == other.uuid

/-- JSON values as far as the adapters in `id.go` distinguish them: the
null scalar, a string scalar, or anything else. -/
inductive Json
  | null
  | str (s : String)
  | other
deriving DecidableEq

/-- Database driver values as far as `ID.Scan` distinguishes them: SQL
null, a string, a byte sequence (given by its UTF-8 decoding), a
`guuid.UUID` value, or any other shape. -/
inductive SqlValue
  | null
  | str (s : String)
  | bytes (s : String)
  | uuid (u : Nat)
  | other
deriving DecidableEq

/-- The `MarshalJSON` method of `ID` (`id.go`): encodes as the shortuuid
string (`json.Marshal` of a string never fails). -/
def ID.MarshalJSON (id : ID) : Json := Json.str id.ShortString

/-- Behaviour of Go's `json.Unmarshal(data, &s)` for a string target:
null leaves the string at its zero value `""` with no error, a string
scalar yields the string, anything else is a type error. -/
def unmarshalString : Json → Option String
  | Json.null => some ""
  | Json.str s => some s
  | Json.other => none

/-- The `UnmarshalJSON` method of `ID` (`id.go`), as state passing: the
pair is the receiver after the call and the returned error. -/
def ID.UnmarshalJSON (id : ID) (j : Json) : ID × Option UUIDError :=
  match unmarshalString j with
  | none => (id, some UUIDError.typeMismatch)
  | some s =>
    match Parse s with
    | .error e => (id, some e)
    | .ok parsed => (parsed, none)

/-- The `Scan` method of `ID` (`id.go`), as state passing: nil resets the
receiver to the zero ID; strings and byte sequences go through
`guuid.Parse`; a `guuid.UUID` is taken verbatim; anything else is a type
mismatch. -/
def ID.Scan (id : ID) (v : SqlValue) : ID × Option UUIDError :=
  match v with
  | SqlValue.null => (⟨0⟩, none)
  | SqlValue.str s =>
    match parseCanonical s.data with
    | some u => (⟨u⟩, none)
    | none => (id, some UUIDError.invalidFormat)
  | SqlValue.bytes s =>
    match parseCanonical s.data with
    | some u => (⟨u⟩, none)
    | none => (id, some UUIDError.invalidFormat)
  | SqlValue.uuid u => (⟨u⟩, none)
  | SqlValue.other => (id, some UUIDError.typeMismatch)

/-- The `NullableID` struct of `id.go`: an ID plus a validity flag. -/
structure NullableID where
  ID : ID
  Valid : Bool
deriving DecidableEq

/-- NewNullable creates a NullableID with a valid ID (`id.go`): validity is
derived from non-zero-ness. -/
def NewNullable (id : ID) : NullableID := ⟨id, !id.IsZero⟩

/-- The `MarshalJSON` method of `NullableID` (`id.go`): null when invalid,
otherwise the ID's JSON encoding. -/
def NullableID.MarshalJSON (nid : NullableID) : Json :=
  if !nid.Valid then Json.null else nid.ID.MarshalJSON

/-- The `UnmarshalJSON` method of `NullableID` (`id.go`), as state passing:
the literal null only clears the Valid flag; otherwise a fresh zero ID is
unmarshalled and stored, marking valid, with errors propagated and the
receiver untouched. -/
def NullableID.UnmarshalJSON (nid : NullableID) (j : Json) : NullableID × Option UUIDError :=
  if j = Json.null then ({ nid with Valid := false }, none)
  else
    match ID.UnmarshalJSON ⟨0⟩ j with
    | (_, some e) => (nid, some e)
    | (idNew, none) => (⟨idNew, true⟩, none)

/-- The `Scan` method of `NullableID` (`id.go`), as state passing: nil only
clears the Valid flag; otherwise a fresh zero ID scans the value and is
stored, marking valid, with errors propagated and the receiver
untouched. -/
def NullableID.Scan (nid : NullableID) (v : SqlValue) : NullableID × Option UUIDError :=
  match v with
  | SqlValue.null => ({ nid with Valid := false }, none)
  | _ =>
    match ID.Scan ⟨0⟩ v with
    | (_, some e) => (nid, some e)
    | (idNew, none) => (⟨idNew, true⟩, none)

lemma hexVal_hexChar : ∀ d, d < 16 → hexVal (hexChar d) = some d := by decide

lemma charToDigit_alphaChar : ∀ d, d < 57 → charToDigit (alphaChar d) = some d := by decide

lemma length_baseDigits (b : Nat) : ∀ k n, (baseDigits b k n).length = k := by
  intro k
  induction k with
  | zero => intro n; rfl
  | succ k ih => intro n; simp [baseDigits, ih]

lemma baseDigits_lt (b : Nat) (hb : 0 < b) : ∀ k n d, d ∈ baseDigits b k n → d < b := by
  intro k
  induction k with
  | zero => intro n d hd; simp [baseDigits] at hd
  | succ k ih =>
    intro n d hd
    simp only [baseDigits, List.mem_cons] at hd
    rcases hd with h1 | h1
    · subst h1; exact Nat.mod_lt _ hb
    · exact ih n d h1

lemma mod_pow_succ (b k m : Nat) : m % b ^ (k + 1) = m / b ^ k % b * b ^ k + m % b ^ k := by
  rw [pow_succ, Nat.mod_mul]
  ring

lemma readHexAux_encode (k : Nat) :
    ∀ (m acc : Nat) (rest : List Char),
      readHexAux acc k ((baseDigits 16 k m).map hexChar ++ rest) =
        some (acc * 16 ^ k + m % 16 ^ k, rest) := by
  induction k with
  | zero => intro m acc rest; simp [baseDigits, readHexAux, Nat.mod_one]
  | succ k ih =>
    intro m acc rest
    have hd : m / 16 ^ k % 16 < 16 := Nat.mod_lt _ (by norm_num)
    simp only [baseDigits, List.map_cons, List.cons_append, List.append_eq, readHexAux,
      hexVal_hexChar _ hd]
    rw [ih]
    rw [mod_pow_succ 16 k m, pow_succ]
    congr 2
    ring

lemma readHexAux_encode_nil (k m acc : Nat) :
    readHexAux acc k ((baseDigits 16 k m).map hexChar) = some (acc * 16 ^ k + m % 16 ^ k, []) := by
  rw [← List.append_nil ((baseDigits 16 k m).map hexChar)]
  exact readHexAux_encode k m acc []

lemma expect_cons (c : Char) (rest : List Char) : expect c (c :: rest) = some rest := by
  simp [expect]

lemma foldl_alpha_encode (k : Nat) :
    ∀ (m acc : Nat),
      List.foldl (fun acc c => acc * 57 + (charToDigit c).getD 0) acc
        ((baseDigits 57 k m).map alphaChar) = acc * 57 ^ k + m % 57 ^ k := by
  induction k with
  | zero => intro m acc; simp [baseDigits, Nat.mod_one]
  | succ k ih =>
    intro m acc
    have hd : m / 57 ^ k % 57 < 57 := Nat.mod_lt _ (by norm_num)
    simp only [baseDigits, List.map_cons, List.foldl_cons, charToDigit_alphaChar _ hd,
      Option.getD_some]
    rw [ih]
    rw [mod_pow_succ 57 k m, pow_succ]
    ring

lemma shortDecode_shortChars (n : Nat) (h : n < 2 ^ 128) : shortDecode (shortChars n) = some n := by
  have hlen : (shortChars n).length = 22 := by
    simp [shortChars, length_baseDigits]
  have hall : ((shortChars n).all fun c => (charToDigit c).isSome) = true := by
    simp only [shortChars, List.all_eq_true]
    intro c hc
    rcases List.mem_map.mp hc with ⟨d, hd, rfl⟩
    have hdlt : d < 57 := baseDigits_lt 57 (by norm_num) 22 n d hd
    simp [charToDigit_alphaChar _ hdlt]
  have hmod : n % 57 ^ 22 = n := by
    apply Nat.mod_eq_of_lt
    calc n < 2 ^ 128 := h
      _ < 57 ^ 22 := by norm_num
  have hfold : (shortChars n).foldl (fun acc c => acc * 57 + (charToDigit c).getD 0) 0 = n := by
    rw [shortChars, foldl_alpha_encode 22 n 0, hmod]
    simp
  simp only [shortDecode, hlen, hall, hfold, h, eq_self_iff_true, decide_True,
    Bool.and_self, Bool.true_and, Bool.and_true, if_true]

lemma parseCanonical_canonicalChars (n : Nat) (h : n < 2 ^ 128) :
    parseCanonical (canonicalChars n) = some n := by
  rw [canonicalChars, parseCanonical]
  rw [readHexAux_encode 8 (n / 2 ^ 96) 0]
  simp only [Option.some_bind, expect_cons]
  rw [readHexAux_encode 4 (n / 2 ^ 80)]
  simp only [Option.some_bind, expect_cons]
  rw [readHexAux_encode 4 (n / 2 ^ 64)]
  simp only [Option.some_bind, expect_cons]
  rw [readHexAux_encode 4 (n / 2 ^ 48)]
  simp only [Option.some_bind, expect_cons]
  rw [readHexAux_encode_nil 12 n]
  simp only [Option.some_bind, if_pos rfl]
  have h96 : n / 2 ^ 96 % 16 ^ 8 = n / 2 ^ 96 := by
    apply Nat.mod_eq_of_lt
    apply Nat.div_lt_of_lt_mul
    calc n < 2 ^ 128 := h
      _ = 2 ^ 96 * 16 ^ 8 := by norm_num
  rw [h96]
  have e1 : n % 2 ^ 128 = n := Nat.mod_eq_of_lt h
  have d1 : n / 2 ^ 80 % 16 ^ 4 = n / 2 ^ 80 % 2 ^ 16 := by norm_num
  have d2 : n / 2 ^ 64 % 16 ^ 4 = n / 2 ^ 64 % 2 ^ 16 := by norm_num
  have d3 : n / 2 ^ 48 % 16 ^ 4 = n / 2 ^ 48 % 2 ^ 16 := by norm_num
  have d4 : n % 16 ^ 12 = n % 2 ^ 48 := by norm_num
  rw [d1, d2, d3, d4]
  have q1 := Nat.div_add_mod n (2 ^ 48)
  have q2 : n / 2 ^ 48 / 2 ^ 16 = n / 2 ^ 64 := by
    rw [Nat.div_div_eq_div_mul]; norm_num
  have q3 : n / 2 ^ 64 / 2 ^ 16 = n / 2 ^ 80 := by
    rw [Nat.div_div_eq_div_mul]; norm_num
  have q4 : n / 2 ^ 80 / 2 ^ 16 = n / 2 ^ 96 := by
    rw [Nat.div_div_eq_div_mul]; norm_num
  have m1 := Nat.div_add_mod (n / 2 ^ 48) (2 ^ 16)
  have m2 := Nat.div_add_mod (n / 2 ^ 64) (2 ^ 16)
  have m3 := Nat.div_add_mod (n / 2 ^ 80) (2 ^ 16)
  rw [q2] at m1
  rw [q3] at m2
  rw [q4] at m3
  norm_num at q1 m1 m2 m3 ⊢
  omega

lemma getD_drop (cs : List Char) (m i : Nat) :
    (cs.drop m).getD i ' ' = cs.getD (m + i) ' ' := by
  simp [List.getD_eq_getElem?_getD, List.getElem?_drop]

lemma readHexAux_some_facts (k : Nat) :
    ∀ (cs : List Char) (acc : Nat) (p : Nat × List Char),
      readHexAux acc k cs = some p →
        k ≤ cs.length ∧ p.2 = cs.drop k ∧ ∀ i, i < k → isHexChar (cs.getD i ' ') = true := by
  induction k with
  | zero =>
    intro cs acc p hp
    simp only [readHexAux, Option.some_inj] at hp
    refine ⟨Nat.zero_le _, ?_, by omega⟩
    simp [← hp]
  | succ k ih =>
    intro cs acc p hp
    cases cs with
    | nil => simp [readHexAux] at hp
    | cons c cs =>
      rw [readHexAux] at hp
      cases hv : hexVal c with
      | none => rw [hv] at hp; simp at hp
      | some d =>
        rw [hv] at hp
        obtain ⟨h1, h2, h3⟩ := ih cs (acc * 16 + d) p hp
        refine ⟨by simpa using Nat.succ_le_succ h1, by simpa using h2, ?_⟩
        intro i hi
        cases i with
        | zero => simp [List.getD_cons_zero, isHexChar, hv]
        | succ i => simpa [List.getD_cons_succ] using h3 i (by omega)

lemma readHexAux_of_hex (k : Nat) :
    ∀ (cs : List Char) (acc : Nat), k ≤ cs.length →
      (∀ i, i < k → isHexChar (cs.getD i ' ') = true) →
      ∃ v, readHexAux acc k cs = some (v, cs.drop k) := by
  induction k with
  | zero => intro cs acc _ _; exact ⟨acc, rfl⟩
  | succ k ih =>
    intro cs acc hlen hhex
    cases cs with
    | nil => simp at hlen
    | cons c cs =>
      have h0 : (hexVal c).isSome = true := by
        simpa [isHexChar, List.getD_cons_zero] using hhex 0 (by omega)
      cases hv : hexVal c with
      | none => rw [hv] at h0; simp at h0
      | some d =>
        obtain ⟨v, hvv⟩ := ih cs (acc * 16 + d) (by simpa using hlen)
          (fun i hi => by simpa [List.getD_cons_succ] using hhex (i + 1) (by omega))
        exact ⟨v, by simp [readHexAux, hv, hvv]⟩

lemma expect_some (c : Char) (cs r : List Char) (hp : expect c cs = some r) :
    1 ≤ cs.length ∧ cs.getD 0 ' ' = c ∧ r = cs.drop 1 := by
  cases cs with
  | nil => simp [expect] at hp
  | cons a as =>
    rw [expect] at hp
    by_cases hac : a = c
    · subst hac
      rw [if_pos rfl] at hp
      injection hp with h
      subst h
      exact ⟨by simp, by simp, rfl⟩
    · simp [if_neg hac] at hp

lemma expect_of (c : Char) (cs : List Char) (hlen : 1 ≤ cs.length)
    (hc : cs.getD 0 ' ' = c) : expect c cs = some (cs.drop 1) := by
  cases cs with
  | nil => simp at hlen
  | cons a as =>
    simp only [List.getD_cons_zero] at hc
    simp [expect, hc]

lemma parseCanonical_some_layout (cs : List Char) (v : Nat)
    (hp : parseCanonical cs = some v) : canonicalLayout cs := by
  rw [parseCanonical, Option.bind_eq_some] at hp
  obtain ⟨p1, h1, hp⟩ := hp
  rw [Option.bind_eq_some] at hp
  obtain ⟨r2, h2, hp⟩ := hp
  rw [Option.bind_eq_some] at hp
  obtain ⟨p2, h3, hp⟩ := hp
  rw [Option.bind_eq_some] at hp
  obtain ⟨r4, h4, hp⟩ := hp
  rw [Option.bind_eq_some] at hp
  obtain ⟨p3, h5, hp⟩ := hp
  rw [Option.bind_eq_some] at hp
  obtain ⟨r6, h6, hp⟩ := hp
  rw [Option.bind_eq_some] at hp
  obtain ⟨p4, h7, hp⟩ := hp
  rw [Option.bind_eq_some] at hp
  obtain ⟨r8, h8, hp⟩ := hp
  rw [Option.bind_eq_some] at hp
  obtain ⟨p5, h9, hp⟩ := hp
  obtain ⟨l1, d1, x1⟩ := readHexAux_some_facts 8 cs 0 p1 h1
  rw [d1] at h2
  obtain ⟨l2, e2, d2⟩ := expect_some '-' _ _ h2
  have e2' : cs.getD 8 ' ' = '-' := by rw [getD_drop] at e2; simpa using e2
  have d2' : r2 = cs.drop 9 := by rw [d2, List.drop_drop]
  rw [d2'] at h3
  obtain ⟨l3, d3, x3⟩ := readHexAux_some_facts 4 _ 0 p2 h3
  have l3' : 13 ≤ cs.length := by simp [List.length_drop] at l3; omega
  have d3' : p2.2 = cs.drop 13 := by rw [d3, List.drop_drop]
  have x3' : ∀ i, i < 4 → isHexChar (cs.getD (9 + i) ' ') = true := fun i hi => by
    have := x3 i hi; rwa [getD_drop] at this
  rw [d3'] at h4
  obtain ⟨l4, e4, d4⟩ := expect_some '-' _ _ h4
  have e4' : cs.getD 13 ' ' = '-' := by rw [getD_drop] at e4; simpa using e4
  have d4' : r4 = cs.drop 14 := by rw [d4, List.drop_drop]
  rw [d4'] at h5
  obtain ⟨l5, d5, x5⟩ := readHexAux_some_facts 4 _ 0 p3 h5
  have l5' : 18 ≤ cs.length := by simp [List.length_drop] at l5; omega
  have d5' : p3.2 = cs.drop 18 := by rw [d5, List.drop_drop]
  have x5' : ∀ i, i < 4 → isHexChar (cs.getD (14 + i) ' ') = true := fun i hi => by
    have := x5 i hi; rwa [getD_drop] at this
  rw [d5'] at h6
  obtain ⟨l6, e6, d6⟩ := expect_some '-' _ _ h6
  have e6' : cs.getD 18 ' ' = '-' := by rw [getD_drop] at e6; simpa using e6
  have d6' : r6 = cs.drop 19 := by rw [d6, List.drop_drop]
  rw [d6'] at h7
  obtain ⟨l7, d7, x7⟩ := readHexAux_some_facts 4 _ 0 p4 h7
  have l7' : 23 ≤ cs.length := by simp [List.length_drop] at l7; omega
  have d7' : p4.2 = cs.drop 23 := by rw [d7, List.drop_drop]
  have x7' : ∀ i, i < 4 → isHexChar (cs.getD (19 + i) ' ') = true := fun i hi => by
    have := x7 i hi; rwa [getD_drop] at this
  rw [d7'] at h8
  obtain ⟨l8, e8, d8⟩ := expect_some '-' _ _ h8
  have e8' : cs.getD 23 ' ' = '-' := by rw [getD_drop] at e8; simpa using e8
  have d8' : r8 = cs.drop 24 := by rw [d8, List.drop_drop]
  rw [d8'] at h9
  obtain ⟨l9, d9, x9⟩ := readHexAux_some_facts 12 _ 0 p5 h9
  have l9' : 36 ≤ cs.length := by simp [List.length_drop] at l9; omega
  have d9' : p5.2 = cs.drop 36 := by rw [d9, List.drop_drop]
  have x9' : ∀ i, i < 12 → isHexChar (cs.getD (24 + i) ' ') = true := fun i hi => by
    have := x9 i hi; rwa [getD_drop] at this
  have hnil : p5.2 = [] := by
    by_cases hc : p5.2 = []
    · exact hc
    · rw [if_neg hc] at hp; cases hp
  have hle : cs.length ≤ 36 := by
    rw [d9'] at hnil
    exact List.drop_eq_nil_iff.mp hnil
  refine ⟨by omega, e2', e4', e6', e8', ?_⟩
  intro i hi n8 n13 n18 n23
  by_cases c1 : i < 8
  · exact x1 i c1
  by_cases c2 : i < 13
  · have := x3' (i - 9) (by omega)
    rwa [show 9 + (i - 9) = i by omega] at this
  by_cases c3 : i < 18
  · have := x5' (i - 14) (by omega)
    rwa [show 14 + (i - 14) = i by omega] at this
  by_cases c4 : i < 23
  · have := x7' (i - 19) (by omega)
    rwa [show 19 + (i - 19) = i by omega] at this
  · have := x9' (i - 24) (by omega)
    rwa [show 24 + (i - 24) = i by omega] at this

lemma parseCanonical_layout_some (cs : List Char) (hl : canonicalLayout cs) :
    ∃ v, parseCanonical cs = some v := by
  obtain ⟨hlen, hy8, hy13, hy18, hy23, hhex⟩ := hl
  obtain ⟨v1, e1⟩ := readHexAux_of_hex 8 cs 0 (by omega)
    (fun i hi => hhex i (by omega) (by omega) (by omega) (by omega) (by omega))
  have ee2 : expect '-' (cs.drop 8) = some (cs.drop 9) := by
    have := expect_of '-' (cs.drop 8) (by simp [List.length_drop]; omega)
      (by rw [getD_drop]; simpa using hy8)
    rw [this, List.drop_drop]
  obtain ⟨v2, e3⟩ := readHexAux_of_hex 4 (cs.drop 9) 0 (by simp [List.length_drop]; omega)
    (fun i hi => by
      rw [getD_drop]
      exact hhex (9 + i) (by omega) (by omega) (by omega) (by omega) (by omega))
  have e3' : readHexAux 0 4 (cs.drop 9) = some (v2, cs.drop 13) := by
    rw [e3, List.drop_drop]
  have ee4 : expect '-' (cs.drop 13) = some (cs.drop 14) := by
    have := expect_of '-' (cs.drop 13) (by simp [List.length_drop]; omega)
      (by rw [getD_drop]; simpa using hy13)
    rw [this, List.drop_drop]
  obtain ⟨v3, e5⟩ := readHexAux_of_hex 4 (cs.drop 14) 0 (by simp [List.length_drop]; omega)
    (fun i hi => by
      rw [getD_drop]
      exact hhex (14 + i) (by omega) (by omega) (by omega) (by omega) (by omega))
  have e5' : readHexAux 0 4 (cs.drop 14) = some (v3, cs.drop 18) := by
    rw [e5, List.drop_drop]
  have ee6 : expect '-' (cs.drop 18) = some (cs.drop 19) := by
    have := expect_of '-' (cs.drop 18) (by simp [List.length_drop]; omega)
      (by rw [getD_drop]; simpa using hy18)
    rw [this, List.drop_drop]
  obtain ⟨v4, e7⟩ := readHexAux_of_hex 4 (cs.drop 19) 0 (by simp [List.length_drop]; omega)
    (fun i hi => by
      rw [getD_drop]
      exact hhex (19 + i) (by omega) (by omega) (by omega) (by omega) (by omega))
  have e7' : readHexAux 0 4 (cs.drop 19) = some (v4, cs.drop 23) := by
    rw [e7, List.drop_drop]
  have ee8 : expect '-' (cs.drop 23) = some (cs.drop 24) := by
    have := expect_of '-' (cs.drop 23) (by simp [List.length_drop]; omega)
      (by rw [getD_drop]; simpa using hy23)
    rw [this, List.drop_drop]
  obtain ⟨v5, e9⟩ := readHexAux_of_hex 12 (cs.drop 24) 0 (by simp [List.length_drop]; omega)
    (fun i hi => by
      rw [getD_drop]
      exact hhex (24 + i) (by omega) (by omega) (by omega) (by omega) (by omega))
  have e9' : readHexAux 0 12 (cs.drop 24) = some (v5, cs.drop 36) := by
    rw [e9, List.drop_drop]
  have hnil : cs.drop 36 = [] := List.drop_eq_nil_iff.mpr (by omega)
  refine ⟨(((v1 * 16 ^ 4 + v2) * 16 ^ 4 + v3) * 16 ^ 4 + v4) * 16 ^ 12 + v5, ?_⟩
  rw [parseCanonical, e1]
  simp only [Option.some_bind]
  rw [ee2]
  simp only [Option.some_bind]
  rw [e3']
  simp only [Option.some_bind]
  rw [ee4]
  simp only [Option.some_bind]
  rw [e5']
  simp only [Option.some_bind]
  rw [ee6]
  simp only [Option.some_bind]
  rw [e7']
  simp only [Option.some_bind]
  rw [ee8]
  simp only [Option.some_bind]
  rw [e9']
  simp only [Option.some_bind]
  rw [if_pos hnil]

lemma getD_set_self (cs : List Char) (i : Nat) (c : Char) (h : i < cs.length) :
    (cs.set i c).getD i ' ' = c := by
  simp [List.getD_eq_getElem?_getD, List.getElem?_set, h]

lemma mem_set_self (cs : List Char) (i : Nat) (c : Char) (h : i < cs.length) :
    c ∈ cs.set i c := by
  have hg : (cs.set i c)[i]? = some c := by simp [List.getElem?_set, h]
  exact List.getElem?_mem hg

lemma shortDecode_some_facts (cs : List Char) (v : Nat) (hp : shortDecode cs = some v) :
    cs.length = 22 ∧ ∀ c ∈ cs, (charToDigit c).isSome = true := by
  by_cases hc : (decide (cs.length = 22) && cs.all fun c => (charToDigit c).isSome) = true
  · rw [Bool.and_eq_true] at hc
    exact ⟨of_decide_eq_true hc.1, List.all_eq_true.mp hc.2⟩
  · rw [shortDecode, if_neg hc] at hp
    cases hp

lemma shortDecode_none_of_bad (cs : List Char) (c : Char) (hc : c ∈ cs)
    (hbad : charToDigit c = none) : shortDecode cs = none := by
  have hall : (cs.all fun c => (charToDigit c).isSome) = false :=
    List.all_eq_false.mpr ⟨c, hc, by simp [hbad]⟩
  rw [shortDecode, if_neg]
  simp [hall]

lemma shortDecode_none_of_len (cs : List Char) (hlen : cs.length ≠ 22) :
    shortDecode cs = none := by
  rw [shortDecode, if_neg]
  simp [hlen]

lemma parseCanonical_none_of_not_layout (cs : List Char) (h : ¬ canonicalLayout cs) :
    parseCanonical cs = none := by
  cases hp : parseCanonical cs with
  | none => rfl
  | some v => exact absurd (parseCanonical_some_layout cs v hp) h

/-- C1: for every 128-bit UUID value `x`, decoding the compact (shortuuid)
encoding of `x` yields `x` back — `Parse (FromUUID x).ShortString` succeeds
and the resulting ID equals `FromUUID x`. -/
theorem C1_compact_roundtrip (x : Nat) (h : x < 2 ^ 128) :
    Parse ((FromUUID x).ShortString) = Except.ok (FromUUID x) := by
  have hd : ((FromUUID x).ShortString).data = shortChars x := rfl
  rw [Parse, hd, shortDecode_shortChars x h]
  rfl

/-- Witness for C1 at the concrete value 5. -/
theorem C1_compact_roundtrip_witness :
    5 < 2 ^ 128 ∧ Parse ((FromUUID 5).ShortString) = Except.ok (FromUUID 5) :=
  ⟨by norm_num, C1_compact_roundtrip 5 (by norm_num)⟩

/-- C2: for every 128-bit UUID value `x`, parsing the canonical hyphenated
text of `x` yields `x` back — `FromString (FromUUID x).String` succeeds and
the resulting ID equals `FromUUID x`. -/
theorem C2_canonical_roundtrip (x : Nat) (h : x < 2 ^ 128) :
    FromString ((FromUUID x).String) = Except.ok (FromUUID x) := by
  have hd : ((FromUUID x).String).data = canonicalChars x := rfl
  rw [FromString, hd, parseCanonical_canonicalChars x h]
  rfl

/-- Witness for C2 at the concrete value 5. -/
theorem C2_canonical_roundtrip_witness :
    5 < 2 ^ 128 ∧ FromString ((FromUUID 5).String) = Except.ok (FromUUID 5) :=
  ⟨by norm_num, C2_canonical_roundtrip 5 (by norm_num)⟩

/-- C3: for each of the five literal fixture pairs (including the all-zero
pair), parsing the canonical string with FromString and taking ShortString
produces exactly the paired compact string, and parsing the compact string
with Parse and taking String produces exactly the paired canonical
string. -/
theorem C3_fixture_pairs :
    ((FromString "8eca1fe1-a833-4de0-b487-b54785cc656e").map ID.ShortString =
        Except.ok "TR7kT7YgYjHN5ET8Yagssh" ∧
      (Parse "TR7kT7YgYjHN5ET8Yagssh").map ID.String =
        Except.ok "8eca1fe1-a833-4de0-b487-b54785cc656e") ∧
    ((FromString "dbf0e6e9-412d-4789-8042-b35d88d5fe80").map ID.ShortString =
        Except.ok "h9YNy27x6xdsqHTjMouA6s" ∧
      (Parse "h9YNy27x6xdsqHTjMouA6s").map ID.String =
        Except.ok "dbf0e6e9-412d-4789-8042-b35d88d5fe80") ∧
    ((FromString "47934534-601a-4ea2-9f35-28d761dbe417").map ID.ShortString =
        Except.ok "EjtEAyHfuns4hG3SwZKMhc" ∧
      (Parse "EjtEAyHfuns4hG3SwZKMhc").map ID.String =
        Except.ok "47934534-601a-4ea2-9f35-28d761dbe417") ∧
    ((FromString "10fd962b-efd3-4725-b556-9a7caad7a40e").map ID.ShortString =
        Except.ok "53Kg5b2NMsBvKw8net9Mss" ∧
      (Parse "53Kg5b2NMsBvKw8net9Mss").map ID.String =
        Except.ok "10fd962b-efd3-4725-b556-9a7caad7a40e") ∧
    ((FromString "00000000-0000-0000-0000-000000000000").map ID.ShortString =
        Except.ok "2222222222222222222222" ∧
      (Parse "2222222222222222222222").map ID.String =
        Except.ok "00000000-0000-0000-0000-000000000000") :=
  ⟨⟨rfl, rfl⟩, ⟨rfl, rfl⟩, ⟨rfl, rfl⟩, ⟨rfl, rfl⟩, ⟨rfl, rfl⟩⟩

/-- C4: the canonical parser (FromString, and the string/byte branches of
ID.Scan) accepts exactly the 36-character hyphenated hex layout,
case-insensitively, and every input deviating from that layout yields an
InvalidFormat error; no other textual form is accepted. -/
theorem C4_canonical_parser_exact (s : String) :
    ((∃ id, FromString s = Except.ok id) ↔ canonicalLayout s.data) ∧
    (FromString s = Except.error UUIDError.invalidFormat ∨
      ∃ id, FromString s = Except.ok id) ∧
    (∀ id0 : ID,
      (((ID.Scan id0 (SqlValue.str s)).2 = none ↔ canonicalLayout s.data) ∧
        ((ID.Scan id0 (SqlValue.bytes s)).2 = none ↔ canonicalLayout s.data) ∧
        ((ID.Scan id0 (SqlValue.str s)).2 = none ∨
          (ID.Scan id0 (SqlValue.str s)).2 = some UUIDError.invalidFormat) ∧
        ((ID.Scan id0 (SqlValue.bytes s)).2 = none ∨
          (ID.Scan id0 (SqlValue.bytes s)).2 = some UUIDError.invalidFormat))) := by
  cases hp : parseCanonical s.data with
  | none =>
    have hnl : ¬ canonicalLayout s.data := by
      intro hl
      obtain ⟨w, hw⟩ := parseCanonical_layout_some _ hl
      rw [hp] at hw
      cases hw
    have hfs : FromString s = Except.error UUIDError.invalidFormat := by
      rw [FromString, hp]
    have hscs : ∀ id0 : ID, ID.Scan id0 (SqlValue.str s) = (id0, some UUIDError.invalidFormat) :=
      fun id0 => by simp [ID.Scan, hp]
    have hscb : ∀ id0 : ID, ID.Scan id0 (SqlValue.bytes s) = (id0, some UUIDError.invalidFormat) :=
      fun id0 => by simp [ID.Scan, hp]
    refine ⟨⟨?_, fun hl => absurd hl hnl⟩, Or.inl hfs, fun id0 => ⟨?_, ?_, ?_, ?_⟩⟩
    · rintro ⟨id, hid⟩
      rw [hfs] at hid
      cases hid
    · rw [hscs id0]
      simp [hnl]
    · rw [hscb id0]
      simp [hnl]
    · rw [hscs id0]
      simp
    · rw [hscb id0]
      simp
  | some v =>
    have hl : canonicalLayout s.data := parseCanonical_some_layout _ v hp
    have hfs : FromString s = Except.ok ⟨v⟩ := by
      rw [FromString, hp]
    have hscs : ∀ id0 : ID, ID.Scan id0 (SqlValue.str s) = (⟨v⟩, none) :=
      fun id0 => by simp [ID.Scan, hp]
    have hscb : ∀ id0 : ID, ID.Scan id0 (SqlValue.bytes s) = (⟨v⟩, none) :=
      fun id0 => by simp [ID.Scan, hp]
    refine ⟨⟨fun _ => hl, fun _ => ⟨⟨v⟩, hfs⟩⟩, Or.inr ⟨⟨v⟩, hfs⟩, fun id0 => ⟨?_, ?_, ?_, ?_⟩⟩
    · rw [hscs id0]
      simp [hl]
    · rw [hscb id0]
      simp [hl]
    · rw [hscs id0]
      simp
    · rw [hscb id0]
      simp

/-- C5: FromString (canonical parsing) and Parse (compact parsing) each
return an InvalidFormat error for the empty string, for any string with one
character altered to fall outside the respective grammar (a non-hex
character in canonical form, an out-of-alphabet character in compact form),
and for truncated strings. -/
theorem C5_malformed_inputs :
    (FromString "" = Except.error UUIDError.invalidFormat) ∧
    (Parse "" = Except.error UUIDError.invalidFormat) ∧
    (∀ (s : String) (id : ID) (i : Nat) (c : Char),
      FromString s = Except.ok id → i < 36 → hexVal c = none → c ≠ '-' →
        FromString ⟨s.data.set i c⟩ = Except.error UUIDError.invalidFormat) ∧
    (∀ (s : String) (id : ID) (i : Nat) (c : Char),
      Parse s = Except.ok id → i < 22 → charToDigit c = none →
        Parse ⟨s.data.set i c⟩ = Except.error UUIDError.invalidFormat) ∧
    (∀ (s : String) (id : ID) (k : Nat),
      FromString s = Except.ok id → k < 36 →
        FromString ⟨s.data.take k⟩ = Except.error UUIDError.invalidFormat) ∧
    (∀ (s : String) (id : ID) (k : Nat),
      Parse s = Except.ok id → k < 22 →
        Parse ⟨s.data.take k⟩ = Except.error UUIDError.invalidFormat) := by
  have hfs_layout : ∀ (s : String) (id : ID), FromString s = Except.ok id →
      canonicalLayout s.data := by
    intro s id hok
    rw [FromString] at hok
    cases hp : parseCanonical s.data with
    | none => rw [hp] at hok; cases hok
    | some v => exact parseCanonical_some_layout _ v hp
  have hp_facts : ∀ (s : String) (id : ID), Parse s = Except.ok id →
      s.data.length = 22 ∧ ∀ c ∈ s.data, (charToDigit c).isSome = true := by
    intro s id hok
    rw [Parse] at hok
    cases hp : shortDecode s.data with
    | none => rw [hp] at hok; cases hok
    | some v => exact shortDecode_some_facts _ v hp
  refine ⟨rfl, rfl, ?_, ?_, ?_, ?_⟩
  · intro s id i c hok hi hbad hneq
    obtain ⟨hlen, hy8, hy13, hy18, hy23, hhex⟩ := hfs_layout s id hok
    have hnone : parseCanonical (s.data.set i c) = none := by
      apply parseCanonical_none_of_not_layout
      intro hl
      obtain ⟨hlen', hy8', hy13', hy18', hy23', hhex'⟩ := hl
      have hgd : (s.data.set i c).getD i ' ' = c :=
        getD_set_self _ _ _ (by omega)
      by_cases h8 : i = 8
      · subst h8; rw [hgd] at hy8'; exact hneq hy8'
      by_cases h13 : i = 13
      · subst h13; rw [hgd] at hy13'; exact hneq hy13'
      by_cases h18 : i = 18
      · subst h18; rw [hgd] at hy18'; exact hneq hy18'
      by_cases h23 : i = 23
      · subst h23; rw [hgd] at hy23'; exact hneq hy23'
      · have := hhex' i hi h8 h13 h18 h23
        rw [hgd] at this
        simp [isHexChar, hbad] at this
    have hd : (String.mk (s.data.set i c)).data = s.data.set i c := rfl
    rw [FromString, hd, hnone]
  · intro s id i c hok hi hbad
    obtain ⟨hlen, _⟩ := hp_facts s id hok
    have hmem : c ∈ s.data.set i c := mem_set_self _ _ _ (by omega)
    have hnone : shortDecode (s.data.set i c) = none :=
      shortDecode_none_of_bad _ c hmem hbad
    have hd : (String.mk (s.data.set i c)).data = s.data.set i c := rfl
    rw [Parse, hd, hnone]
  · intro s id k hok hk
    obtain ⟨hlen, hy8, hy13, hy18, hy23, hhex⟩ := hfs_layout s id hok
    have hnone : parseCanonical (s.data.take k) = none := by
      apply parseCanonical_none_of_not_layout
      intro hl
      obtain ⟨hlen', _⟩ := hl
      have hkl : (s.data.take k).length = k := by
        rw [List.length_take]
        omega
      omega
    have hd : (String.mk (s.data.take k)).data = s.data.take k := rfl
    rw [FromString, hd, hnone]
  · intro s id k hok hk
    obtain ⟨hlen, _⟩ := hp_facts s id hok
    have hnone : shortDecode (s.data.take k) = none := by
      apply shortDecode_none_of_len
      rw [List.length_take]
      omega
    have hd : (String.mk (s.data.take k)).data = s.data.take k := rfl
    rw [Parse, hd, hnone]

/-- Witness for C5: a valid canonical string with one character altered to
a non-hex character, a valid compact string with one character altered to
an out-of-alphabet character, and truncations of both, are all rejected
with InvalidFormat. -/
theorem C5_malformed_inputs_witness :
    FromString ⟨"8eca1fe1-a833-4de0-b487-b54785cc656e".data.set 0 'g'⟩ =
        Except.error UUIDError.invalidFormat ∧
    Parse ⟨"TR7kT7YgYjHN5ET8Yagssh".data.set 0 '!'⟩ =
        Except.error UUIDError.invalidFormat ∧
    FromString ⟨"8eca1fe1-a833-4de0-b487-b54785cc656e".data.take 10⟩ =
        Except.error UUIDError.invalidFormat ∧
    Parse ⟨"TR7kT7YgYjHN5ET8Yagssh".data.take 10⟩ =
        Except.error UUIDError.invalidFormat :=
  ⟨C5_malformed_inputs.2.2.1 "8eca1fe1-a833-4de0-b487-b54785cc656e"
      (FromUUID 0x8eca1fe1a8334de0b487b54785cc656e) 0 'g' rfl (by norm_num) (by decide)
      (by decide),
    C5_malformed_inputs.2.2.2.1 "TR7kT7YgYjHN5ET8Yagssh"
      (FromUUID 0x8eca1fe1a8334de0b487b54785cc656e) 0 '!' rfl (by norm_num) (by decide),
    C5_malformed_inputs.2.2.2.2.1 "8eca1fe1-a833-4de0-b487-b54785cc656e"
      (FromUUID 0x8eca1fe1a8334de0b487b54785cc656e) 10 rfl (by norm_num),
    C5_malformed_inputs.2.2.2.2.2 "TR7kT7YgYjHN5ET8Yagssh"
      (FromUUID 0x8eca1fe1a8334de0b487b54785cc656e) 10 rfl (by norm_num)⟩

/-- Counterexample to C6: `ID.Scan` has a third accepted shape — a
`guuid.UUID` value — which is non-nil and neither a string nor a byte
sequence, yet Scan neither returns a TypeMismatch error nor leaves the
receiver unmodified (it stores the value and returns no error). -/
theorem C6_scan_type_mismatch_counterexample :
    ¬ ((ID.Scan (FromUUID 0) (SqlValue.uuid 5)).2 = some UUIDError.typeMismatch ∧
      (ID.Scan (FromUUID 0) (SqlValue.uuid 5)).1 = FromUUID 0) := by
  decide

/-- C6 (amended): for every non-nil storage value whose shape is neither a
string, nor a byte sequence, nor a `guuid.UUID`, ID.Scan returns a
TypeMismatch error and does not modify the receiver. -/
theorem C6_scan_type_mismatch_amended (id0 : ID) :
    ID.Scan id0 SqlValue.other = (id0, some UUIDError.typeMismatch) := rfl

/-- C7: reading a storage null never fails — `ID.Scan` on nil returns no
error and sets the receiver to the zero ID, and `NullableID.Scan` on nil
returns no error and marks the receiver invalid. -/
theorem C7_null_scan_never_fails :
    (∀ id0 : ID, ID.Scan id0 SqlValue.null = (FromUUID 0, none)) ∧
    (∀ nid : NullableID, (NullableID.Scan nid SqlValue.null).2 = none ∧
      (NullableID.Scan nid SqlValue.null).1.Valid = false) :=
  ⟨fun _ => rfl, fun _ => ⟨rfl, rfl⟩⟩

/-- C8: nullability invariant — NewNullable of the zero ID is invalid,
NewNullable of any non-zero ID is valid, unmarshalling the JSON null
scalar into a NullableID yields Valid = false with no error, and
marshalling an invalid NullableID yields exactly the JSON null scalar. -/
theorem C8_nullability_invariant :
    (NewNullable (FromUUID 0)).Valid = false ∧
    (∀ id : ID, id.IsZero = false → (NewNullable id).Valid = true) ∧
    (∀ nid : NullableID, (NullableID.UnmarshalJSON nid Json.null).1.Valid = false ∧
      (NullableID.UnmarshalJSON nid Json.null).2 = none) ∧
    (∀ id : ID, NullableID.MarshalJSON ⟨id, false⟩ = Json.null) :=
  ⟨rfl, fun id h => by simp [NewNullable, h], fun _ => ⟨rfl, rfl⟩, fun _ => rfl⟩

/-- Witness for C8 at the concrete non-zero ID 1. -/
theorem C8_nullability_invariant_witness :
    (FromUUID 1).IsZero = false ∧ (NewNullable (FromUUID 1)).Valid = true :=
  ⟨by decide, C8_nullability_invariant.2.1 (FromUUID 1) (by decide)⟩

/-- C9: atomicity on error — whenever ID.UnmarshalJSON, ID.Scan,
NullableID.UnmarshalJSON or NullableID.Scan returns an error, the receiver
(including the Valid flag for NullableID) is left exactly as it was. -/
theorem C9_error_atomicity :
    (∀ (id0 : ID) (j : Json) (r : ID) (e : UUIDError),
      ID.UnmarshalJSON id0 j = (r, some e) → r = id0) ∧
    (∀ (id0 : ID) (v : SqlValue) (r : ID) (e : UUIDError),
      ID.Scan id0 v = (r, some e) → r = id0) ∧
    (∀ (nid : NullableID) (j : Json) (r : NullableID) (e : UUIDError),
      NullableID.UnmarshalJSON nid j = (r, some e) → r = nid) ∧
    (∀ (nid : NullableID) (v : SqlValue) (r : NullableID) (e : UUIDError),
      NullableID.Scan nid v = (r, some e) → r = nid) := by
  refine ⟨?_, ?_, ?_, ?_⟩
  · intro id0 j r e h
    rw [ID.UnmarshalJSON] at h
    split at h
    · injection h with h1 h2
      exact h1.symm
    · split at h
      · injection h with h1 h2
        exact h1.symm
      · injection h with h1 h2
        cases h2
  · intro id0 v r e h
    cases v with
    | null =>
      rw [ID.Scan] at h
      injection h with h1 h2
      cases h2
    | str s =>
      rw [ID.Scan] at h
      cases hp : parseCanonical s.data with
      | none =>
        rw [hp] at h
        injection h with h1 h2
        exact h1.symm
      | some u =>
        rw [hp] at h
        injection h with h1 h2
        cases h2
    | bytes s =>
      rw [ID.Scan] at h
      cases hp : parseCanonical s.data with
      | none =>
        rw [hp] at h
        injection h with h1 h2
        exact h1.symm
      | some u =>
        rw [hp] at h
        injection h with h1 h2
        cases h2
    | uuid u =>
      rw [ID.Scan] at h
      injection h with h1 h2
      cases h2
    | other =>
      rw [ID.Scan] at h
      injection h with h1 h2
      exact h1.symm
  · intro nid j r e h
    rw [NullableID.UnmarshalJSON] at h
    by_cases hj : j = Json.null
    · rw [if_pos hj] at h
      injection h with h1 h2
      cases h2
    · rw [if_neg hj] at h
      rcases hio : ID.UnmarshalJSON ⟨0⟩ j with ⟨idN, eo⟩
      rw [hio] at h
      cases eo with
      | none =>
        injection h with h1 h2
        cases h2
      | some e2 =>
        injection h with h1 h2
        exact h1.symm
  · intro nid v r e h
    cases v with
    | null =>
      rw [NullableID.Scan] at h
      injection h with h1 h2
      cases h2
    | str s =>
      simp only [NullableID.Scan] at h
      rcases hio : ID.Scan ⟨0⟩ (SqlValue.str s) with ⟨idN, eo⟩
      rw [hio] at h
      cases eo with
      | none =>
        injection h with h1 h2
        cases h2
      | some e2 =>
        injection h with h1 h2
        exact h1.symm
    | bytes s =>
      simp only [NullableID.Scan] at h
      rcases hio : ID.Scan ⟨0⟩ (SqlValue.bytes s) with ⟨idN, eo⟩
      rw [hio] at h
      cases eo with
      | none =>
        injection h with h1 h2
        cases h2
      | some e2 =>
        injection h with h1 h2
        exact h1.symm
    | uuid u =>
      simp only [NullableID.Scan] at h
      rcases hio : ID.Scan ⟨0⟩ (SqlValue.uuid u) with ⟨idN, eo⟩
      rw [hio] at h
      cases eo with
      | none =>
        injection h with h1 h2
        cases h2
      | some e2 =>
        injection h with h1 h2
        exact h1.symm
    | other =>
      simp only [NullableID.Scan] at h
      rcases hio : ID.Scan ⟨0⟩ SqlValue.other with ⟨idN, eo⟩
      rw [hio] at h
      cases eo with
      | none =>
        injection h with h1 h2
        cases h2
      | some e2 =>
        injection h with h1 h2
        exact h1.symm

/-- Witness for C9: each of the four operations at a concrete erroring
input, with the receiver shown unchanged. -/
theorem C9_error_atomicity_witness :
    (ID.UnmarshalJSON (FromUUID 5) (Json.str "x") =
        (FromUUID 5, some UUIDError.invalidFormat) ∧ FromUUID 5 = FromUUID 5) ∧
    (ID.Scan (FromUUID 5) (SqlValue.str "x") =
        (FromUUID 5, some UUIDError.invalidFormat) ∧ FromUUID 5 = FromUUID 5) ∧
    (NullableID.UnmarshalJSON ⟨FromUUID 5, true⟩ (Json.str "x") =
        (⟨FromUUID 5, true⟩, some UUIDError.invalidFormat) ∧
      (⟨FromUUID 5, true⟩ : NullableID) = ⟨FromUUID 5, true⟩) ∧
    (NullableID.Scan ⟨FromUUID 5, true⟩ (SqlValue.str "x") =
        (⟨FromUUID 5, true⟩, some UUIDError.invalidFormat) ∧
      (⟨FromUUID 5, true⟩ : NullableID) = ⟨FromUUID 5, true⟩) :=
  ⟨⟨by decide, C9_error_atomicity.1 (FromUUID 5) (Json.str "x") (FromUUID 5)
      UUIDError.invalidFormat (by decide)⟩,
    ⟨by decide, C9_error_atomicity.2.1 (FromUUID 5) (SqlValue.str "x") (FromUUID 5)
      UUIDError.invalidFormat (by decide)⟩,
    ⟨by decide, C9_error_atomicity.2.2.1 ⟨FromUUID 5, true⟩ (Json.str "x") ⟨FromUUID 5, true⟩
      UUIDError.invalidFormat (by decide)⟩,
    ⟨by decide, C9_error_atomicity.2.2.2 ⟨FromUUID 5, true⟩ (SqlValue.str "x") ⟨FromUUID 5, true⟩
      UUIDError.invalidFormat (by decide)⟩⟩

/-- C10: when NullableID.UnmarshalJSON receives the literal null, or
NullableID.Scan receives nil, only the Valid flag is cleared — the ID field
is left untouched, so a previously stored non-zero ID remains in the struct
while it is marked invalid. -/
theorem C10_null_clears_only_valid_flag :
    (∀ nid : NullableID,
      NullableID.UnmarshalJSON nid Json.null = (⟨nid.ID, false⟩, none)) ∧
    (∀ nid : NullableID,
      NullableID.Scan nid SqlValue.null = (⟨nid.ID, false⟩, none)) :=
  ⟨fun _ => rfl, fun _ => rfl⟩
